/-
Verification of the preprocessing pipeline (preprocess.py):
the Sentence Sampler (`_sample_article`), the Gold Span Locator
(`_find_golden_span`) and the Batch Orchestrator
(`parallel_sample_article` / `parallel_find_gold_span`).

Shallow embedding conventions:
* tokens are `String`s, token sequences are `List String`;
* float scores are modelled as exact rationals `ℚ` (all score comparisons
  in the source are `== 1.0`, `> 0`, `>= 0.25`, which the rational model
  reproduces faithfully for the LCS-style ratio scores involved);
* the external LCS similarity scorer (`utils.rouge.RougeL`, not part of
  the analysed sources) is abstracted as a `Scorer` record of per-instance
  score functions; all theorems are universally quantified over it;
* Python `IndexError` raising code paths are modelled with
  `Except String`;
* `np.argsort` is modelled as a stable ascending argsort (numpy's
  introsort degenerates to stable insertion sort on the small
  per-article arrays involved) and `np.argmax` as first-maximum.
-/
import Mathlib

/-- The external similarity scorer interface (`utils.rouge.RougeL`).
`add_inst(cand, ref)` appends `sim cand ref` to `inst_scores`,
`rec cand ref` to `r_scores` and `prec cand ref` to `p_scores`.
The scorer internals are external to the analysed sources, so the
whole development is parametric in this record. -/
structure Scorer where
  sim : String → String → ℚ
  rScore : String → String → ℚ
  pScore : String → String → ℚ

/-- A row of the merged sample dataframe (one (article, question) pair). -/
structure SampleRow where
  article_id : String
  question_id : String
  article_tokens : List String
  article_flags : List String
  question_tokens : List String
  question_flags : List String
  answer_tokens : List String
  answer_flags : List String
  answer_token_start : ℤ
  answer_token_end : ℤ
  delta_token_starts : List ℕ
  delta_token_ends : List ℕ
  delta_rouges : List ℚ
  deriving DecidableEq, Repr

/-- A concrete scorer instance used for witnesses: score 1 when candidate
and reference coincide, 0 otherwise. -/
def eqScorer : Scorer :=
  ⟨fun c r => if c = r then 1 else 0,
   fun c r => if c = r then 1 else 0,
   fun c r => if c = r then 1 else 0⟩

/-! ### Sentence Sampler (`_sample_article`) -/

/-- Python `token in '。'` (substring test against the one-character
string `"。"`): true exactly for the empty token and `"。"` itself. -/
def isSentBoundary (tok : String) : Bool :=
  decide (tok = "" ∨ tok = "。")

/-- Python `'。' in ''.join(article_tokens)`: the boundary character
occurs somewhere in the concatenated article text. -/
def hasBoundaryChar (tokens : List String) : Bool :=
  tokens.any (fun t => t.toList.contains '。')

/-- The sentence-splitting loop of `_sample_article` (lines 250-263):
walk the zipped token/flag stream, close the current sentence at a
boundary token or at the last article index, and keep it only when it
has at least 2 tokens. `n` is `len(article_tokens)`. -/
def splitAux (n : ℕ) : ℕ → List String → List String →
    List (String × String) → List (List String) × List (List String)
  | _, _, _, [] => ([], [])
  | idx, cur, curF, (tok, flg) :: rest =>
    let cur' := cur ++ [tok]
    let curF' := curF ++ [flg]
    if isSentBoundary tok = true ∨ idx = n - 1 then
      let r := splitAux n (idx + 1) [] [] rest
      if 2 ≤ cur'.length then (cur' :: r.1, curF' :: r.2) else r
    else
      splitAux n (idx + 1) cur' curF' rest

/-- Split an article into sentences and parallel flag chunks. -/
def splitSentences (tokens flags : List String) :
    List (List String) × List (List String) :=
  splitAux tokens.length 0 [] [] (tokens.zip flags)

/-- Per-sentence score (lines 258-261): `add_inst(sentence, question)`
followed by forcing the recall to 1.0 whenever the precision is
exactly 1.0; the sampler then reads `r_scores`. -/
def sentenceScore (sc : Scorer) (question : String) (s : List String) : ℚ :=
  let t := String.join s
  if sc.pScore t question = 1 then 1 else sc.rScore t question

/-- Comparison used to model `np.argsort` on `l`: ascending by value,
ties by original index (stability of insertion sort on small arrays). -/
def rankLE (l : List ℚ) (i j : ℕ) : Prop :=
  l.getD i 0 < l.getD j 0 ∨ (l.getD i 0 = l.getD j 0 ∧ i ≤ j)

instance rankLE.decidableRel (l : List ℚ) : DecidableRel (rankLE l) :=
  fun i j => inferInstanceAs (Decidable (_ ∨ _ ∧ _))

/-- Model of `np.argsort(l)`: stable ascending argsort. -/
def argsortAsc (l : List ℚ) : List ℕ :=
  List.insertionSort (rankLE l) (List.range l.length)

/-- Model of `list(reversed(np.argsort(l)))` (lines 272 and 288). -/
def argsortDesc (l : List ℚ) : List ℕ :=
  (argsortAsc l).reverse

/-- The decay multipliers of line 281. -/
def blockMults : List ℚ := [1/2, 9/10, 1, 1, 9/10, 1/2, 2/5]

/-- Lines 281-286: elementwise-max update of `s_rank[pos-2 : pos+5]`
with the decayed scores (callers guarantee `2 ≤ pos`). -/
def blockUpdate (sRank : List ℚ) (pos : ℕ) (score : ℚ) : List ℚ :=
  sRank.enum.map (fun p =>
    if pos - 2 ≤ p.1 ∧ p.1 < pos + 5 then
      max p.2 (blockMults.getD (p.1 - (pos - 2)) 0 * score)
    else p.2)

/-- Lines 271-286: start from `np.zeros(len(sentences))` and propagate
the scores of the top-10 ranked sentences, skipping the force-kept
positions `0, 1, n-1, n-2` and zero scores. -/
def computeSRank (scores : List ℚ) : List ℚ :=
  let n := scores.length
  ((argsortDesc scores).take 10).foldl
    (fun sRank pos =>
      if pos = 0 ∨ pos = 1 ∨ pos + 1 = n ∨ pos + 2 = n ∨ scores.getD pos 0 = 0 then
        sRank
      else blockUpdate sRank pos (scores.getD pos 0))
    (List.replicate n 0)

/-- The greedy selection loop (lines 293-299): walk the rank list,
break once the running length reaches the budget, and otherwise add any
sentence whose propagated score is positive. -/
def greedyLoop (sentLens : List ℕ) (sRank : List ℚ) (maxLen : ℕ) :
    List ℕ → List Bool × ℕ → List Bool × ℕ
  | [], st => st
  | pos :: rest, (fl, cl) =>
    if cl < maxLen then
      if 0 < sRank.getD pos 0 then
        greedyLoop sentLens sRank maxLen rest
          (fl.set pos true, cl + sentLens.getD pos 0)
      else greedyLoop sentLens sRank maxLen rest (fl, cl)
    else (fl, cl)

/-- Lines 301-304: collect the chunks whose flag is set, in original
order. -/
def selectByFlag (sents : List (List String)) (flag : List Bool) :
    List (List String) :=
  (sents.zip flag).filterMap (fun p => if p.2 then some p.1 else none)

/-- Lines 288-299 packaged: the selection flags produced by the rank /
force-keep / greedy phase of `_sample_article` for a sentence list. -/
def samplerFlags (sc : Scorer) (maxLen : ℕ) (sentences : List (List String))
    (question : String) : List Bool :=
  let scores := sentences.map (sentenceScore sc question)
  let sRank := computeSRank scores
  let n := sentences.length
  let rank := argsortDesc sRank
  let flag0 :=
    ((((List.replicate n false).set 0 true).set 1 true).set (n - 1) true).set
      (n - 2) true
  let curLen0 := (sentences.getD 0 []).length + (sentences.getD 1 []).length +
    (sentences.getD (n - 1) []).length + (sentences.getD (n - 2) []).length
  (greedyLoop (sentences.map List.length) sRank maxLen rank (flag0, curLen0)).1

/-- The row produced by the main (boundary-bearing, ≥ 2 sentences)
branch of `_sample_article` (lines 270-309). -/
def mainSampledRow (sc : Scorer) (maxTokenLen : ℕ) (row : SampleRow) :
    SampleRow :=
  let split := splitSentences row.article_tokens row.article_flags
  let flag := samplerFlags sc maxTokenLen split.1 (String.join row.question_tokens)
  { row with
      article_tokens := (selectByFlag split.1 flag).flatten.take maxTokenLen,
      article_flags := (selectByFlag split.2 flag).flatten.take maxTokenLen }

/-- Embedding of `_sample_article` (lines 227-309). A `.error` value models a Python
`IndexError`: with fewer than two sentences the tuple assignment
`flag[0], flag[1], flag[-1], flag[-2] = 1, 1, 1, 1` (line 290) raises,
and with no sentence at all the no-boundary branch's `sentences[0]`
(line 266) raises. -/
def sampleArticle (sc : Scorer) (maxTokenLen : ℕ) (row : SampleRow) :
    Except String SampleRow :=
  if row.article_tokens.length ≤ maxTokenLen then .ok row
  else
    if hasBoundaryChar row.article_tokens = false then
      match (splitSentences row.article_tokens row.article_flags).1,
            (splitSentences row.article_tokens row.article_flags).2 with
      | s0 :: _, f0 :: _ => .ok { row with article_tokens := s0, article_flags := f0 }
      | _, _ => .error "IndexError"
    else
      if (splitSentences row.article_tokens row.article_flags).1.length < 2 then
        .error "IndexError"
      else .ok (mainSampledRow sc maxTokenLen row)

/-! ### Spec-side sampler variants (for refinement claims C5 and C6) -/

/-- Modelled from the spec: the step-5 greedy pass as the spec words it,
"greedily add sentences (excluding the 4 force-kept) in rank order while
running length < budget and score > 0" — the force-kept positions
`0, 1, n-1, n-2` are skipped outright. -/
def greedyLoopExcl (sentLens : List ℕ) (sRank : List ℚ) (maxLen n : ℕ) :
    List ℕ → List Bool × ℕ → List Bool × ℕ
  | [], st => st
  | pos :: rest, (fl, cl) =>
    if cl < maxLen then
      if pos = 0 ∨ pos = 1 ∨ pos + 1 = n ∨ pos + 2 = n then
        greedyLoopExcl sentLens sRank maxLen n rest (fl, cl)
      else if 0 < sRank.getD pos 0 then
        greedyLoopExcl sentLens sRank maxLen n rest
          (fl.set pos true, cl + sentLens.getD pos 0)
      else greedyLoopExcl sentLens sRank maxLen n rest (fl, cl)
    else (fl, cl)

/-- Selection flags using the spec's exclusion-based greedy pass. -/
def samplerFlagsExcl (sc : Scorer) (maxLen : ℕ)
    (sentences : List (List String)) (question : String) : List Bool :=
  let scores := sentences.map (sentenceScore sc question)
  let sRank := computeSRank scores
  let n := sentences.length
  let rank := argsortDesc sRank
  let flag0 :=
    ((((List.replicate n false).set 0 true).set 1 true).set (n - 1) true).set
      (n - 2) true
  let curLen0 := (sentences.getD 0 []).length + (sentences.getD 1 []).length +
    (sentences.getD (n - 1) []).length + (sentences.getD (n - 2) []).length
  (greedyLoopExcl (sentences.map List.length) sRank maxLen n rank
    (flag0, curLen0)).1

/-- The sampler as claim C5 describes it: identical to `sampleArticle`
except that the greedy pass excludes the four force-kept sentences. -/
def sampleArticleExclC5 (sc : Scorer) (maxTokenLen : ℕ) (row : SampleRow) :
    Except String SampleRow :=
  if row.article_tokens.length ≤ maxTokenLen then .ok row
  else
    if hasBoundaryChar row.article_tokens = false then
      match (splitSentences row.article_tokens row.article_flags).1,
            (splitSentences row.article_tokens row.article_flags).2 with
      | s0 :: _, f0 :: _ => .ok { row with article_tokens := s0, article_flags := f0 }
      | _, _ => .error "IndexError"
    else
      if (splitSentences row.article_tokens row.article_flags).1.length < 2 then
        .error "IndexError"
      else
        let split := splitSentences row.article_tokens row.article_flags
        let flag := samplerFlagsExcl sc maxTokenLen split.1
          (String.join row.question_tokens)
        .ok { row with
                article_tokens := (selectByFlag split.1 flag).flatten.take maxTokenLen,
                article_flags := (selectByFlag split.2 flag).flatten.take maxTokenLen }

/-- One step of the greedy loop written as a fold with an explicit
"still running" flag: processing stops contributing once the running
length has reached the budget, and otherwise any position with positive
propagated score is added (force-kept positions included). -/
def greedyStep (sentLens : List ℕ) (sRank : List ℚ) (maxLen : ℕ)
    (st : List Bool × ℕ × Bool) (pos : ℕ) : List Bool × ℕ × Bool :=
  if st.2.2 = false then (st.1, st.2.1, false)
  else if st.2.1 < maxLen then
    if 0 < sRank.getD pos 0 then
      (st.1.set pos true, st.2.1 + sentLens.getD pos 0, true)
    else (st.1, st.2.1, true)
  else (st.1, st.2.1, false)

/-- The amended description of the greedy phase as a left fold. -/
def greedyFold (sentLens : List ℕ) (sRank : List ℚ) (maxLen : ℕ)
    (rank : List ℕ) (init : List Bool × ℕ) : List Bool × ℕ :=
  let r := rank.foldl (greedyStep sentLens sRank maxLen) (init.1, init.2, true)
  (r.1, r.2.1)

/-- Modelled from the spec: the ordering claim C6 asserts — descending
by score with ties broken by ORIGINAL (ascending) position. -/
def rankGEC6 (l : List ℚ) (i j : ℕ) : Prop :=
  l.getD j 0 < l.getD i 0 ∨ (l.getD i 0 = l.getD j 0 ∧ i ≤ j)

instance rankGEC6.decidableRel (l : List ℚ) : DecidableRel (rankGEC6 l) :=
  fun i j => inferInstanceAs (Decidable (_ ∨ _ ∧ _))

/-- The stable descending ranking that claim C6 describes. -/
def stableDescC6 (l : List ℚ) : List ℕ :=
  List.insertionSort (rankGEC6 l) (List.range l.length)

/-! ### Gold Span Locator (`_find_golden_span`) -/

/-- Python `str.strip()`: drop leading and trailing whitespace. -/
def pyStrip (s : String) : String :=
  String.mk
    (((s.toList.dropWhile Char.isWhitespace).reverse.dropWhile
      Char.isWhitespace).reverse)

/-- The character set of a string (Python `set(s)`). -/
def charSet (s : String) : Finset Char :=
  s.toList.toFinset

/-- Lines 360-362: character-set IoU
`len(s1 & s2) / max(len(s1), len(s2))`, 0 when both sets are empty. -/
def charIoU (a b : String) : ℚ :=
  let s1 := charSet a
  let s2 := charSet b
  let mlen := max s1.card s2.card
  if mlen = 0 then 0 else ((s1 ∩ s2).card : ℚ) / (mlen : ℚ)

/-- Candidate text `''.join(article_tokens[i:i+t]).strip()` (line 359). -/
def candText (article : List String) (i t : ℕ) : String :=
  pyStrip (String.join ((article.drop i).take t))

/-- Lines 366-367: the context window text, candidate extended
`max(i-7, 0)` tokens before and 3 after, clipped to bounds. -/
def ctxText (article : List String) (i t : ℕ) : String :=
  pyStrip (String.join ((article.drop (i - 7)).take (i + t + 3 - (i - 7))))

/-- Lines 355-358: candidate spans `(i, t_len)` — every start
`i in range(len_p - len_a + 1)` and every
`t_len in range(len_a - 2, len_a + 3)`, skipping `t_len <= 0` and
`i + t_len > len_p` (Python integer ranges, hence the `ℤ` guards). -/
def candPairs (lenP lenA : ℕ) : List (ℕ × ℕ) :=
  (List.range (lenP + 1 - lenA)).flatMap (fun i =>
    (List.range 5).filterMap (fun k =>
      let t : ℤ := (lenA : ℤ) + (k : ℤ) - 2
      if t ≤ 0 ∨ (lenP : ℤ) < (i : ℤ) + t then none else some (i, t.toNat)))

/-- Lines 359-363: the candidates surviving the IoU ≥ 0.25 prefilter,
in generation order. -/
def survivors (article answerTokens : List String) : List (ℕ × ℕ) :=
  let ground := pyStrip (String.join answerTokens)
  (candPairs article.length answerTokens.length).filter
    (fun p => decide ((1 : ℚ)/4 ≤ charIoU (candText article p.1 p.2) ground))

/-- The series `rl.inst_scores`: one similarity per surviving candidate,
in insertion order (line 364). -/
def instScores (sc : Scorer) (article answerTokens : List String) : List ℚ :=
  let ground := pyStrip (String.join answerTokens)
  (survivors article answerTokens).map
    (fun p => sc.sim (candText article p.1 p.2) ground)

/-- The list `rl_q_idx` (lines 365-369): positions (into the survivor list) of
the candidates whose similarity is exactly 1.0, in order. -/
def exactMatchIdxs (sc : Scorer) (article answerTokens : List String) :
    List ℕ :=
  ((instScores sc article answerTokens).enum.filter
    (fun p => decide (p.2 = 1))).map Prod.fst

/-- The series `rl_q.r_scores` (line 368): the context/question recall score of each
exact-match candidate, in order. -/
def ctxScores (sc : Scorer) (article answerTokens questionTokens : List String) :
    List ℚ :=
  let questionStr := pyStrip (String.join questionTokens)
  (exactMatchIdxs sc article answerTokens).map (fun j =>
    let p := (survivors article answerTokens).getD j (0, 0)
    sc.rScore (ctxText article p.1 p.2) questionStr)

/-- Model of `np.argmax`: index of the first maximum. -/
def argmaxGo : ℕ → ℕ → ℚ → List ℚ → ℕ
  | _, bi, _, [] => bi
  | i, bi, bv, x :: xs =>
    if bv < x then argmaxGo (i + 1) i x xs else argmaxGo (i + 1) bi bv xs

/-- Model of `np.argmax` over a (nonempty) list; 0 on the empty list. -/
def argmaxFirst : List ℚ → ℕ
  | [] => 0
  | x :: xs => argmaxGo 1 0 x xs

/-- Lines 376-382: `best_idx` — if at most one candidate is an exact
match, the first global maximum of the similarity scores; otherwise the
exact-match candidate whose context window scores highest against the
question (`rl_q_idx[np.argmax(rl_q.r_scores)]`). -/
def locBestIdx (sc : Scorer) (row : SampleRow) : ℕ :=
  let sims := instScores sc row.article_tokens row.answer_tokens
  if sims.countP (fun q => decide (q = 1)) ≤ 1 then argmaxFirst sims
  else
    (exactMatchIdxs sc row.article_tokens row.answer_tokens).getD
      (argmaxFirst (ctxScores sc row.article_tokens row.answer_tokens
        row.question_tokens)) 0

/-- Embedding of `_find_golden_span` (lines 335-390): sentinel `(-1, -1)` with empty
delta arrays when no candidate survives the prefilter; otherwise select
the candidate `locBestIdx` points at. -/
def locateGoldenSpan (sc : Scorer) (row : SampleRow) : SampleRow :=
  let article := row.article_tokens
  let surv := survivors article row.answer_tokens
  if surv = [] then
    { row with answer_token_start := -1, answer_token_end := -1,
               delta_token_starts := [], delta_token_ends := [],
               delta_rouges := [] }
  else
    let sims := instScores sc article row.answer_tokens
    let starSpans := surv.map Prod.fst
    let endSpans := surv.map (fun p => p.1 + p.2 - 1)
    let bestIdx := locBestIdx sc row
    { row with
        answer_token_start := ((starSpans.getD bestIdx 0 : ℕ) : ℤ),
        answer_token_end := ((endSpans.getD bestIdx 0 : ℕ) : ℤ),
        delta_token_starts := starSpans,
        delta_token_ends := endSpans,
        delta_rouges := sims }

/-! ### Batch Orchestrator (`parallel_sample_article`,
`parallel_find_gold_span`) -/

/-- The `np.array_split` chunk sizes: the first `l % n` chunks get
`l / n + 1` elements, the rest `l / n`. -/
def arraySplitSizes (n l : ℕ) : List ℕ :=
  (List.range n).map (fun k => if k < l % n then l / n + 1 else l / n)

/-- Cut a list into consecutive chunks of the given sizes. -/
def chunksBySizes : List ℕ → List α → List (List α)
  | [], _ => []
  | k :: ks, xs => xs.take k :: chunksBySizes ks (xs.drop k)

/-- Model of `np.array_split(xs, n)`: `n` contiguous partitions. -/
def arraySplit (n : ℕ) (xs : List α) : List (List α) :=
  chunksBySizes (arraySplitSizes n xs.length) xs

/-- The Batch Orchestrator: split into `W` contiguous partitions, apply
the per-row transform to each partition, concatenate in partition
order (`p.map` + `pd.concat`). -/
def parallelMap (f : α → β) (W : ℕ) (xs : List α) : List β :=
  ((arraySplit W xs).map (List.map f)).flatten

/-! ### Concrete rows used by witnesses and counterexamples -/

/-- A default-valued row. -/
def emptyRow : SampleRow :=
  ⟨"a1", "q1", [], [], [], [], [], [], -1, -1, [], [], []⟩

/-- Scenario-1-style row: over-budget article with boundary markers. -/
def c1row : SampleRow :=
  { emptyRow with
      article_tokens := ["中", "国", "。", "经", "济", "增", "长", "。"],
      article_flags := ["a", "b", "c", "d", "e", "f", "g", "h"],
      question_tokens := ["经", "济"] }

/-- The sampler output on `c1row` with budget 4. -/
def c1out : SampleRow :=
  { c1row with
      article_tokens := ["中", "国", "。", "经"],
      article_flags := ["a", "b", "c", "d"] }

/-- An over-budget article that splits into a single sentence: the
sampler raises on it. -/
def c2row : SampleRow :=
  { emptyRow with
      article_tokens := ["a", "b", "。"],
      article_flags := ["x", "y", "z"] }

/-- Nine two-token sentences; the third sentence equals the question, so
its score propagates onto the force-kept sentences 0 and 1. -/
def c5row : SampleRow :=
  { emptyRow with
      article_tokens := ["a", "。", "b", "。", "c", "。", "d", "。", "e", "。",
                         "f", "。", "g", "。", "h", "。", "i", "。"],
      article_flags := ["a", "。", "b", "。", "c", "。", "d", "。", "e", "。",
                        "f", "。", "g", "。", "h", "。", "i", "。"],
      question_tokens := ["c。"] }

/-- Scenario-2 row for the Locator: answer `["增","长"]` occurs at token
span (2, 3) of the article. -/
def scen2row : SampleRow :=
  { emptyRow with
      article_tokens := ["经", "济", "增", "长"],
      question_tokens := ["钱"],
      answer_tokens := ["增", "长"] }

/-- A row already within budget. -/
def tinyRow : SampleRow :=
  { emptyRow with
      article_tokens := ["a", "。", "b"],
      article_flags := ["x", "y", "z"],
      question_tokens := ["a"] }

/-! ### Helper lemmas -/

/-- Invariant of `argmaxGo`: scanning the suffix `xs` (whose element `k`
sits at absolute position `i + k`, with values given by `v`) starting
from a running first-maximum `bi < i` yields the first maximum of
everything seen. -/
theorem argmaxGo_spec (v : ℕ → ℚ) (xs : List ℚ) :
    ∀ (i bi : ℕ), bi < i →
      (∀ k, k < xs.length → v (i + k) = xs.getD k 0) →
      (∀ j, j < i → v j ≤ v bi) →
      (∀ j, j < bi → v j < v bi) →
      argmaxGo i bi (v bi) xs < i + xs.length ∧
        (∀ j, j < i + xs.length → v j ≤ v (argmaxGo i bi (v bi) xs)) ∧
        (∀ j, j < argmaxGo i bi (v bi) xs → v j < v (argmaxGo i bi (v bi) xs)) := by
  induction xs with
  | nil =>
    intro i bi hbi _ hmax hstrict
    refine ⟨by simpa [argmaxGo] using by omega, ?_, ?_⟩
    · intro j hj
      have hj' : j < i := by simpa using hj
      simpa [argmaxGo] using hmax j hj'
    · intro j hj
      have hj' : j < bi := by simpa [argmaxGo] using hj
      simpa [argmaxGo] using hstrict j hj'
  | cons x xs ih =>
    intro i bi hbi hv hmax hstrict
    have hvi : v i = x := by simpa using hv 0 (by simp)
    have hv' : ∀ k, k < xs.length → v (i + 1 + k) = xs.getD k 0 := by
      intro k hk
      have h1 := hv (k + 1) (by simp only [List.length_cons]; omega)
      simpa [show i + (k + 1) = i + 1 + k by omega] using h1
    by_cases hlt : v bi < x
    · have hgo : argmaxGo i bi (v bi) (x :: xs) = argmaxGo (i + 1) i (v i) xs := by
        simp [argmaxGo, hlt, hvi]
      have hmax' : ∀ j, j < i + 1 → v j ≤ v i := by
        intro j hj
        rcases Nat.lt_or_ge j i with h | h
        · exact le_of_lt (lt_of_le_of_lt (hmax j h) (by rw [hvi]; exact hlt))
        · have hji : j = i := by omega
          simp [hji]
      have hstrict' : ∀ j, j < i → v j < v i := by
        intro j hj
        exact lt_of_le_of_lt (hmax j hj) (by rw [hvi]; exact hlt)
      obtain ⟨h1, h2, h3⟩ := ih (i + 1) i (by omega) hv' hmax' hstrict'
      rw [hgo]
      refine ⟨by simp only [List.length_cons]; omega, ?_, h3⟩
      intro j hj
      exact h2 j (by simp only [List.length_cons] at hj; omega)
    · have hgo : argmaxGo i bi (v bi) (x :: xs) = argmaxGo (i + 1) bi (v bi) xs := by
        simp [argmaxGo, hlt]
      have hmax' : ∀ j, j < i + 1 → v j ≤ v bi := by
        intro j hj
        rcases Nat.lt_or_ge j i with h | h
        · exact hmax j h
        · have hji : j = i := by omega
          rw [hji, hvi]; exact not_lt.mp hlt
      obtain ⟨h1, h2, h3⟩ := ih (i + 1) bi (by omega) hv' hmax' hstrict
      rw [hgo]
      refine ⟨by simp only [List.length_cons]; omega, ?_, h3⟩
      intro j hj
      exact h2 j (by simp only [List.length_cons] at hj; omega)

/-- The function `argmaxFirst` returns the first index attaining the maximum. -/
theorem argmaxFirst_spec (l : List ℚ) (hne : l ≠ []) :
    argmaxFirst l < l.length ∧
      (∀ j, j < l.length → l.getD j 0 ≤ l.getD (argmaxFirst l) 0) ∧
      (∀ j, j < argmaxFirst l → l.getD j 0 < l.getD (argmaxFirst l) 0) := by
  obtain ⟨x, xs, rfl⟩ : ∃ y ys, l = y :: ys := by
    cases l with
    | nil => exact absurd rfl hne
    | cons a as => exact ⟨a, as, rfl⟩
  have h := argmaxGo_spec (fun j => (x :: xs).getD j 0) xs 1 0 (by omega)
      (fun k hk => by
        have hik : 1 + k = k + 1 := by omega
        simp [hik])
      (fun j hj => by
        have hj0 : j = 0 := by omega
        simp [hj0])
      (fun j hj => absurd hj (by omega))
  simp only [List.getD_cons_zero] at h
  obtain ⟨h1, h2, h3⟩ := h
  have hfa : argmaxFirst (x :: xs) = argmaxGo 1 0 x xs := rfl
  refine ⟨?_, ?_, ?_⟩
  · rw [hfa]; simp only [List.length_cons]; omega
  · intro j hj
    rw [hfa]
    exact h2 j (by simp only [List.length_cons] at hj; omega)
  · intro j hj
    rw [hfa] at hj ⊢
    exact h3 j hj

/-- Monotonicity of `flatten` along sublists of chunk lists. -/
theorem sublist_flatten_mono {α : Type} {l₁ l₂ : List (List α)}
    (h : List.Sublist l₁ l₂) : List.Sublist l₁.flatten l₂.flatten := by
  induction h with
  | slnil => simp
  | cons a _ ih =>
    simp only [List.flatten_cons]
    exact ih.trans (List.sublist_append_right _ _)
  | cons₂ a _ ih =>
    simp only [List.flatten_cons]
    exact ih.append_left a

/-- First components of a zip form a sublist of the first list. -/
theorem zip_map_fst_sublist {α β : Type} :
    ∀ (t : List α) (f : List β), List.Sublist ((t.zip f).map Prod.fst) t
  | [], _ => by simp
  | _ :: _, [] => by simp
  | a :: t, _ :: f => by
    simpa using (zip_map_fst_sublist t f).cons₂ a

/-- Second components of a zip form a sublist of the second list. -/
theorem zip_map_snd_sublist {α β : Type} :
    ∀ (t : List α) (f : List β), List.Sublist ((t.zip f).map Prod.snd) f
  | [], _ => by simp
  | _ :: _, [] => by simp
  | a :: t, b :: f => by
    simpa using (zip_map_snd_sublist t f).cons₂ b

/-- The flattened sentences produced by `splitAux` are a sublist of the
current chunk followed by the remaining token stream. -/
theorem splitAux_fst_flatten_sublist :
    ∀ (ps : List (String × String)) (n idx : ℕ) (cur curF : List String),
      List.Sublist (splitAux n idx cur curF ps).1.flatten (cur ++ ps.map Prod.fst)
  | [], n, idx, cur, curF => by simp [splitAux]
  | (tok, flg) :: rest, n, idx, cur, curF => by
    have hshape : cur ++ ((tok, flg) :: rest).map Prod.fst =
        (cur ++ [tok]) ++ rest.map Prod.fst := by simp
    rw [hshape]
    by_cases hb : isSentBoundary tok = true ∨ idx = n - 1
    · rw [splitAux, if_pos hb]
      by_cases hlen : 2 ≤ (cur ++ [tok]).length
      · rw [if_pos hlen]
        simp only [List.flatten_cons]
        have ih := splitAux_fst_flatten_sublist rest n (idx + 1) [] []
        simpa using (ih.append_left (cur ++ [tok]))
      · rw [if_neg hlen]
        have ih := splitAux_fst_flatten_sublist rest n (idx + 1) [] []
        simp only [List.nil_append] at ih
        exact ih.trans (List.sublist_append_right _ _)
    · rw [splitAux, if_neg hb]
      exact splitAux_fst_flatten_sublist rest n (idx + 1) (cur ++ [tok]) (curF ++ [flg])

/-- Same as `splitAux_fst_flatten_sublist` for the flag side. -/
theorem splitAux_snd_flatten_sublist :
    ∀ (ps : List (String × String)) (n idx : ℕ) (cur curF : List String),
      List.Sublist (splitAux n idx cur curF ps).2.flatten (curF ++ ps.map Prod.snd)
  | [], n, idx, cur, curF => by simp [splitAux]
  | (tok, flg) :: rest, n, idx, cur, curF => by
    have hshape : curF ++ ((tok, flg) :: rest).map Prod.snd =
        (curF ++ [flg]) ++ rest.map Prod.snd := by simp
    rw [hshape]
    by_cases hb : isSentBoundary tok = true ∨ idx = n - 1
    · rw [splitAux, if_pos hb]
      by_cases hlen : 2 ≤ (cur ++ [tok]).length
      · rw [if_pos hlen]
        simp only [List.flatten_cons]
        have ih := splitAux_snd_flatten_sublist rest n (idx + 1) [] []
        simpa using (ih.append_left (curF ++ [flg]))
      · rw [if_neg hlen]
        have ih := splitAux_snd_flatten_sublist rest n (idx + 1) [] []
        simp only [List.nil_append] at ih
        exact ih.trans (List.sublist_append_right _ _)
    · rw [splitAux, if_neg hb]
      exact splitAux_snd_flatten_sublist rest n (idx + 1) (cur ++ [tok]) (curF ++ [flg])

/-- The flattened sentence split is a sublist of the article tokens. -/
theorem splitSentences_fst_flatten_sublist (tokens flags : List String) :
    List.Sublist (splitSentences tokens flags).1.flatten tokens := by
  have h := splitAux_fst_flatten_sublist (tokens.zip flags) tokens.length 0 [] []
  simp only [List.nil_append] at h
  exact h.trans (zip_map_fst_sublist tokens flags)

/-- The flattened flag split is a sublist of the article flags. -/
theorem splitSentences_snd_flatten_sublist (tokens flags : List String) :
    List.Sublist (splitSentences tokens flags).2.flatten flags := by
  have h := splitAux_snd_flatten_sublist (tokens.zip flags) tokens.length 0 [] []
  simp only [List.nil_append] at h
  exact h.trans (zip_map_snd_sublist tokens flags)

/-- Both components of `splitAux` have the same number of chunks. -/
theorem splitAux_length_eq :
    ∀ (ps : List (String × String)) (n idx : ℕ) (cur curF : List String),
      (splitAux n idx cur curF ps).1.length = (splitAux n idx cur curF ps).2.length
  | [], _, _, _, _ => by simp [splitAux]
  | (tok, flg) :: rest, n, idx, cur, curF => by
    by_cases hb : isSentBoundary tok = true ∨ idx = n - 1
    · rw [splitAux, if_pos hb]
      by_cases hlen : 2 ≤ (cur ++ [tok]).length
      · rw [if_pos hlen]
        simpa using splitAux_length_eq rest n (idx + 1) [] []
      · rw [if_neg hlen]
        exact splitAux_length_eq rest n (idx + 1) [] []
    · rw [splitAux, if_neg hb]
      exact splitAux_length_eq rest n (idx + 1) (cur ++ [tok]) (curF ++ [flg])

/-- The chunks selected by a flag vector form a sublist of the chunks. -/
theorem selectByFlag_sublist :
    ∀ (sents : List (List String)) (flag : List Bool),
      List.Sublist (selectByFlag sents flag) sents
  | [], _ => by simp [selectByFlag]
  | _ :: _, [] => by simp [selectByFlag]
  | s :: ss, b :: bs => by
    cases b with
    | true =>
      have ih := selectByFlag_sublist ss bs
      simpa [selectByFlag, List.filterMap_cons] using ih.cons₂ s
    | false =>
      have ih := selectByFlag_sublist ss bs
      simpa [selectByFlag, List.filterMap_cons] using ih.cons s

/-- Once inactive, the greedy fold never changes state. -/
theorem foldl_greedyStep_inactive (sentLens : List ℕ) (sRank : List ℚ)
    (maxLen : ℕ) :
    ∀ (rank : List ℕ) (fl : List Bool) (cl : ℕ),
      rank.foldl (greedyStep sentLens sRank maxLen) (fl, cl, false) =
        (fl, cl, false)
  | [], _, _ => rfl
  | pos :: rest, fl, cl => by
    have hstep : greedyStep sentLens sRank maxLen (fl, cl, false) pos =
        (fl, cl, false) := by
      simp [greedyStep]
    rw [List.foldl_cons, hstep]
    exact foldl_greedyStep_inactive sentLens sRank maxLen rest fl cl

/-- The source's break-style greedy loop equals the fold-with-active-flag
formulation. -/
theorem greedyLoop_eq_greedyFold (sentLens : List ℕ) (sRank : List ℚ)
    (maxLen : ℕ) :
    ∀ (rank : List ℕ) (st : List Bool × ℕ),
      greedyLoop sentLens sRank maxLen rank st =
        greedyFold sentLens sRank maxLen rank st
  | [], (fl, cl) => rfl
  | pos :: rest, (fl, cl) => by
    by_cases hcl : cl < maxLen
    · by_cases hs : 0 < sRank.getD pos 0
      · have h1 : greedyLoop sentLens sRank maxLen (pos :: rest) (fl, cl) =
            greedyLoop sentLens sRank maxLen rest
              (fl.set pos true, cl + sentLens.getD pos 0) := by
          rw [greedyLoop, if_pos hcl, if_pos hs]
        have h2 : greedyStep sentLens sRank maxLen (fl, cl, true) pos =
            (fl.set pos true, cl + sentLens.getD pos 0, true) := by
          unfold greedyStep
          rw [if_neg (by simp), if_pos hcl, if_pos hs]
        rw [h1, greedyLoop_eq_greedyFold sentLens sRank maxLen rest _]
        simp only [greedyFold, List.foldl_cons, h2]
      · have h1 : greedyLoop sentLens sRank maxLen (pos :: rest) (fl, cl) =
            greedyLoop sentLens sRank maxLen rest (fl, cl) := by
          rw [greedyLoop, if_pos hcl, if_neg hs]
        have h2 : greedyStep sentLens sRank maxLen (fl, cl, true) pos =
            (fl, cl, true) := by
          unfold greedyStep
          rw [if_neg (by simp), if_pos hcl, if_neg hs]
        rw [h1, greedyLoop_eq_greedyFold sentLens sRank maxLen rest _]
        simp only [greedyFold, List.foldl_cons, h2]
    · have h1 : greedyLoop sentLens sRank maxLen (pos :: rest) (fl, cl) =
          (fl, cl) := by
        rw [greedyLoop, if_neg hcl]
      have h2 : greedyStep sentLens sRank maxLen (fl, cl, true) pos =
          (fl, cl, false) := by
        unfold greedyStep
        rw [if_neg (by simp), if_neg hcl]
      rw [h1]
      simp only [greedyFold, List.foldl_cons, h2,
        foldl_greedyStep_inactive sentLens sRank maxLen rest fl cl]

/-- Sum of indicator values over `range b`. -/
theorem sum_map_ite_range :
    ∀ (b m : ℕ),
      ((List.range b).map (fun k => if k < m then 1 else 0)).sum = min m b
  | 0, m => by simp
  | b + 1, m => by
    rw [List.range_succ, List.map_append, List.sum_append,
      sum_map_ite_range b m]
    by_cases h : b < m
    · simp only [List.map_cons, List.map_nil, if_pos h]
      simp only [List.sum_cons, List.sum_nil]
      omega
    · simp only [List.map_cons, List.map_nil, if_neg h]
      simp only [List.sum_cons, List.sum_nil]
      omega

/-- Sum of a constant-plus-indicator map over `range b`. -/
theorem sum_map_const_add_ite_range :
    ∀ (b m q : ℕ),
      ((List.range b).map (fun k => q + (if k < m then 1 else 0))).sum =
        b * q + min m b
  | 0, _, _ => by simp
  | b + 1, m, q => by
    rw [List.range_succ, List.map_append, List.sum_append,
      sum_map_const_add_ite_range b m q]
    by_cases h : b < m
    · simp only [List.map_cons, List.map_nil, if_pos h]
      simp only [List.sum_cons, List.sum_nil]
      have hmin : min m b = b := by omega
      have hmin' : min m (b + 1) = b + 1 := by omega
      rw [hmin, hmin']
      ring_nf
    · simp only [List.map_cons, List.map_nil, if_neg h]
      simp only [List.sum_cons, List.sum_nil]
      have hmin : min m b = m := by omega
      have hmin' : min m (b + 1) = m := by omega
      rw [hmin, hmin']
      ring_nf

/-- The `np.array_split` chunk sizes add up to the list length. -/
theorem arraySplitSizes_sum (n l : ℕ) (h : 1 ≤ n) :
    (arraySplitSizes n l).sum = l := by
  unfold arraySplitSizes
  have hfun : (fun k => if k < l % n then l / n + 1 else l / n) =
      (fun k => l / n + (if k < l % n then 1 else 0)) := by
    funext k
    by_cases hk : k < l % n <;> simp [hk]
  rw [hfun, sum_map_const_add_ite_range]
  have hmod : l % n < n := Nat.mod_lt l (by omega)
  have hmin : min (l % n) n = l % n := by omega
  rw [hmin]
  have := Nat.div_add_mod l n
  omega

/-- Chunking by sizes that cover the list and flattening is the
identity. -/
theorem flatten_chunksBySizes {α : Type} :
    ∀ (ks : List ℕ) (xs : List α), xs.length ≤ ks.sum →
      (chunksBySizes ks xs).flatten = xs
  | [], xs, h => by
    have : xs = [] := List.eq_nil_of_length_eq_zero (by simpa using h)
    simp [chunksBySizes, this]
  | k :: ks, xs, h => by
    rw [chunksBySizes]
    simp only [List.flatten_cons]
    rw [flatten_chunksBySizes ks (xs.drop k)
      (by simp only [List.length_drop]; simp only [List.sum_cons] at h; omega)]
    exact List.take_append_drop k xs

/-- Totality of `rankLE`. -/
theorem rankLE_total (l : List ℚ) : ∀ i j, rankLE l i j ∨ rankLE l j i := by
  intro i j
  rcases lt_trichotomy (l.getD i 0) (l.getD j 0) with h | h | h
  · exact Or.inl (Or.inl h)
  · rcases Nat.le_total i j with hij | hij
    · exact Or.inl (Or.inr ⟨h, hij⟩)
    · exact Or.inr (Or.inr ⟨h.symm, hij⟩)
  · exact Or.inr (Or.inl h)

/-- Transitivity of `rankLE`. -/
theorem rankLE_trans (l : List ℚ) :
    ∀ i j k, rankLE l i j → rankLE l j k → rankLE l i k := by
  intro i j k hij hjk
  rcases hij with h1 | ⟨h1, h1'⟩
  · rcases hjk with h2 | ⟨h2, _⟩
    · exact Or.inl (h1.trans h2)
    · exact Or.inl (h2 ▸ h1)
  · rcases hjk with h2 | ⟨h2, h2'⟩
    · exact Or.inl (h1 ▸ h2)
    · exact Or.inr ⟨h1.trans h2, h1'.trans h2'⟩

/-- Defaulted indexing of a member index lands in the list. -/
theorem getD_mem_of_lt {α : Type} (l : List α) (i : ℕ) (d : α)
    (h : i < l.length) : l.getD i d ∈ l := by
  rw [List.getD_eq_getElem l d h]
  exact List.getElem_mem h

/-- Membership in `enumFrom` determines the value at the index. -/
theorem mem_enumFrom_getD :
    ∀ (l : List ℚ) (n i : ℕ) (x : ℚ), (i, x) ∈ l.enumFrom n →
      n ≤ i ∧ i - n < l.length ∧ l.getD (i - n) 0 = x
  | [], _, _, _, h => by simp at h
  | y :: l, n, i, x, h => by
    rw [List.enumFrom] at h
    rcases List.mem_cons.mp h with h1 | h1
    · have hi : i = n ∧ x = y := by
        constructor <;> [exact congrArg Prod.fst h1; exact congrArg Prod.snd h1]
      obtain ⟨rfl, rfl⟩ := hi
      simp
    · obtain ⟨hn, hlen, hval⟩ := mem_enumFrom_getD l (n + 1) i x h1
      refine ⟨by omega, by simp only [List.length_cons]; omega, ?_⟩
      have : i - n = (i - (n + 1)) + 1 := by omega
      rw [this, List.getD_cons_succ]
      exact hval

/-- Filtering on the value via `enumFrom` preserves the count of
matching elements. -/
theorem enumFrom_filter_length :
    ∀ (l : List ℚ) (n : ℕ) (f : ℚ → Bool),
      ((l.enumFrom n).filter (fun p => f p.2)).length = (l.filter f).length
  | [], _, _ => rfl
  | x :: l, n, f => by
    by_cases hf : f x = true
    · simp [List.enumFrom, List.filter_cons, hf,
        enumFrom_filter_length l (n + 1) f]
    · simp [List.enumFrom, List.filter_cons, hf,
        enumFrom_filter_length l (n + 1) f]

/-- Every generated candidate pair `(i, t)` has positive length and
stays inside the article: `1 ≤ t` and `i + t ≤ lenP`. -/
theorem candPairs_mem (lenP lenA : ℕ) (p : ℕ × ℕ)
    (h : p ∈ candPairs lenP lenA) : 1 ≤ p.2 ∧ p.1 + p.2 ≤ lenP := by
  unfold candPairs at h
  rw [List.mem_flatMap] at h
  obtain ⟨i, _, hmem⟩ := h
  rw [List.mem_filterMap] at hmem
  obtain ⟨k, _, hk⟩ := hmem
  by_cases hcond : (lenA : ℤ) + (k : ℤ) - 2 ≤ 0 ∨
      (lenP : ℤ) < (i : ℤ) + ((lenA : ℤ) + (k : ℤ) - 2)
  · rw [if_pos hcond] at hk
    exact absurd hk (by simp)
  · rw [if_neg hcond] at hk
    push_neg at hcond
    obtain ⟨hpos, hle⟩ := hcond
    have hp : p = (i, ((lenA : ℤ) + (k : ℤ) - 2).toNat) := by
      exact (Option.some.injEq _ _).mp hk |>.symm
    subst hp
    constructor
    · show 1 ≤ ((lenA : ℤ) + (k : ℤ) - 2).toNat
      omega
    · show i + ((lenA : ℤ) + (k : ℤ) - 2).toNat ≤ lenP
      omega

/-- Branch lemma: below budget the sampler is the identity. -/
theorem sampleArticle_below (sc : Scorer) (maxTokenLen : ℕ) (row : SampleRow)
    (h : row.article_tokens.length ≤ maxTokenLen) :
    sampleArticle sc maxTokenLen row = Except.ok row := by
  unfold sampleArticle
  rw [if_pos h]

/-- Branch lemma: over budget, with a boundary character and at least
two sentences, the sampler returns the main sampled row. -/
theorem sampleArticle_main (sc : Scorer) (maxTokenLen : ℕ) (row : SampleRow)
    (h1 : ¬ row.article_tokens.length ≤ maxTokenLen)
    (hb : hasBoundaryChar row.article_tokens = true)
    (h2 : ¬ (splitSentences row.article_tokens row.article_flags).1.length < 2) :
    sampleArticle sc maxTokenLen row =
      Except.ok (mainSampledRow sc maxTokenLen row) := by
  unfold sampleArticle
  rw [if_neg h1, if_neg (by simp [hb]), if_neg h2]

/-- Branch lemma: over budget, with a boundary character but fewer than
two sentences, the sampler raises. -/
theorem sampleArticle_error_main (sc : Scorer) (maxTokenLen : ℕ)
    (row : SampleRow)
    (h1 : ¬ row.article_tokens.length ≤ maxTokenLen)
    (hb : hasBoundaryChar row.article_tokens = true)
    (h2 : (splitSentences row.article_tokens row.article_flags).1.length < 2) :
    sampleArticle sc maxTokenLen row = Except.error "IndexError" := by
  unfold sampleArticle
  rw [if_neg h1, if_neg (by simp [hb]), if_pos h2]

/-- Branch lemma: over budget with no boundary character and a nonempty
split, the sampler returns the first sentence and flag chunk. -/
theorem sampleArticle_noBoundary (sc : Scorer) (maxTokenLen : ℕ)
    (row : SampleRow)
    (h1 : ¬ row.article_tokens.length ≤ maxTokenLen)
    (hb : hasBoundaryChar row.article_tokens = false)
    (hs : (splitSentences row.article_tokens row.article_flags).1 ≠ []) :
    sampleArticle sc maxTokenLen row =
      Except.ok { row with
        article_tokens :=
          (splitSentences row.article_tokens row.article_flags).1.headD [],
        article_flags :=
          (splitSentences row.article_tokens row.article_flags).2.headD [] } := by
  have hlen2 : (splitSentences row.article_tokens row.article_flags).1.length =
      (splitSentences row.article_tokens row.article_flags).2.length := by
    unfold splitSentences
    exact splitAux_length_eq _ _ _ _ _
  obtain ⟨s0, srest, hs1⟩ : ∃ a l,
      (splitSentences row.article_tokens row.article_flags).1 = a :: l := by
    cases hc : (splitSentences row.article_tokens row.article_flags).1 with
    | nil => exact absurd hc hs
    | cons a l => exact ⟨a, l, rfl⟩
  obtain ⟨f0, frest, hf1⟩ : ∃ a l,
      (splitSentences row.article_tokens row.article_flags).2 = a :: l := by
    rw [hs1] at hlen2
    cases hc : (splitSentences row.article_tokens row.article_flags).2 with
    | nil => rw [hc] at hlen2; simp at hlen2
    | cons a l => exact ⟨a, l, rfl⟩
  unfold sampleArticle
  rw [if_neg h1, if_pos hb, hs1, hf1]
  simp

/-- Branch lemma: over budget with no boundary character and an empty
split, the sampler raises (`sentences[0]` on an empty list). -/
theorem sampleArticle_error_noBoundary (sc : Scorer) (maxTokenLen : ℕ)
    (row : SampleRow)
    (h1 : ¬ row.article_tokens.length ≤ maxTokenLen)
    (hb : hasBoundaryChar row.article_tokens = false)
    (hs : (splitSentences row.article_tokens row.article_flags).1 = []) :
    sampleArticle sc maxTokenLen row = Except.error "IndexError" := by
  unfold sampleArticle
  rw [if_neg h1, if_pos hb, hs]

/-! ### Claim C7 -/

/-- C7: for every row whose article token sequence has length at most
`max_token_len`, the Sampler returns the row unchanged — article tokens,
flags and all other fields are exactly the input's. -/
theorem sampler_identity_below_budget (sc : Scorer) (maxTokenLen : ℕ)
    (row : SampleRow) (h : row.article_tokens.length ≤ maxTokenLen) :
    sampleArticle sc maxTokenLen row = Except.ok row :=
  sampleArticle_below sc maxTokenLen row h

/-- Witness for C7 at a concrete below-budget row. -/
theorem sampler_identity_below_budget_witness :
    tinyRow.article_tokens.length ≤ 10 ∧
      sampleArticle eqScorer 10 tinyRow = Except.ok tinyRow :=
  ⟨by decide, sampler_identity_below_budget eqScorer 10 tinyRow (by decide)⟩

/-! ### Claim C10 -/

/-- C10: the Locator writes only `answer_token_start`,
`answer_token_end`, `delta_token_starts`, `delta_token_ends` and
`delta_rouges`; every other field of the row is returned unchanged. -/
theorem locator_frame_preserves_fields (sc : Scorer) (row : SampleRow) :
    (locateGoldenSpan sc row).article_id = row.article_id ∧
    (locateGoldenSpan sc row).question_id = row.question_id ∧
    (locateGoldenSpan sc row).article_tokens = row.article_tokens ∧
    (locateGoldenSpan sc row).article_flags = row.article_flags ∧
    (locateGoldenSpan sc row).question_tokens = row.question_tokens ∧
    (locateGoldenSpan sc row).question_flags = row.question_flags ∧
    (locateGoldenSpan sc row).answer_tokens = row.answer_tokens ∧
    (locateGoldenSpan sc row).answer_flags = row.answer_flags := by
  by_cases h : survivors row.article_tokens row.answer_tokens = []
  · simp [locateGoldenSpan, h]
  · simp [locateGoldenSpan, h]

/-! ### Claim C9 -/

/-- C9: for every table and worker count `W ≥ 1`, splitting the rows
into `W` contiguous partitions, mapping the per-row transform over each
partition and concatenating in partition order gives the same rows in
the same order as the single-partition run (which is the plain map). -/
theorem orchestrator_partition_invariance {α β : Type} (f : α → β) (W : ℕ)
    (xs : List α) (h : 1 ≤ W) :
    parallelMap f W xs = parallelMap f 1 xs ∧
      parallelMap f 1 xs = xs.map f := by
  have key : ∀ n, 1 ≤ n → parallelMap f n xs = xs.map f := by
    intro n hn
    unfold parallelMap arraySplit
    rw [← List.map_flatten,
      flatten_chunksBySizes (arraySplitSizes n xs.length) xs
        (le_of_eq (arraySplitSizes_sum n xs.length hn).symm)]
  exact ⟨(key W h).trans (key 1 (by omega)).symm, key 1 (by omega)⟩

/-- Witness for C9: three partitions of a five-row table. -/
theorem orchestrator_partition_invariance_witness :
    1 ≤ 3 ∧
      (parallelMap Nat.succ 3 [0, 1, 2, 3, 4] =
          parallelMap Nat.succ 1 [0, 1, 2, 3, 4] ∧
        parallelMap Nat.succ 1 [0, 1, 2, 3, 4] =
          [0, 1, 2, 3, 4].map Nat.succ) :=
  ⟨by decide, orchestrator_partition_invariance Nat.succ 3 [0, 1, 2, 3, 4]
    (by decide)⟩

/-! ### Claim C2 (corrected) -/

/-- Counterexample to C2 as stated: on the over-budget row
`["a", "b", "。"]` with budget 2 the article splits into a single
sentence and `_sample_article` raises an IndexError at
`flag[1] = 1` instead of terminating normally (there is no
zero-sentences no-op in the code). -/
theorem sampler_raises_on_single_sentence :
    sampleArticle eqScorer 2 c2row = Except.error "IndexError" := by
  rfl

/-- C2 amended: the Sampler terminates normally iff the row is within
budget, or splitting yields at least two sentences when the article
contains a boundary character, or at least one sentence when it does
not; in the remaining cases (fewer sentences than that, e.g. zero) it
raises an IndexError rather than returning the row unchanged. -/
theorem sampler_termination_characterization (sc : Scorer)
    (maxTokenLen : ℕ) (row : SampleRow) :
    (∃ out, sampleArticle sc maxTokenLen row = Except.ok out) ↔
      (row.article_tokens.length ≤ maxTokenLen ∨
        (if hasBoundaryChar row.article_tokens = true
         then 2 ≤ (splitSentences row.article_tokens row.article_flags).1.length
         else 1 ≤ (splitSentences row.article_tokens row.article_flags).1.length)) := by
  by_cases h1 : row.article_tokens.length ≤ maxTokenLen
  · exact ⟨fun _ => Or.inl h1,
      fun _ => ⟨row, sampleArticle_below sc maxTokenLen row h1⟩⟩
  · by_cases hb : hasBoundaryChar row.article_tokens = true
    · by_cases h2 :
          (splitSentences row.article_tokens row.article_flags).1.length < 2
      · constructor
        · rintro ⟨out, hout⟩
          rw [sampleArticle_error_main sc maxTokenLen row h1 hb h2] at hout
          simp at hout
        · intro hr
          rcases hr with hr | hr
          · exact absurd hr h1
          · rw [if_pos hb] at hr
            omega
      · constructor
        · intro _
          exact Or.inr (by rw [if_pos hb]; omega)
        · intro _
          exact ⟨_, sampleArticle_main sc maxTokenLen row h1 hb h2⟩
    · have hb' : hasBoundaryChar row.article_tokens = false := by
        cases hbc : hasBoundaryChar row.article_tokens
        · rfl
        · exact absurd hbc hb
      by_cases hs : (splitSentences row.article_tokens row.article_flags).1 = []
      · constructor
        · rintro ⟨out, hout⟩
          rw [sampleArticle_error_noBoundary sc maxTokenLen row h1 hb' hs] at hout
          simp at hout
        · intro hr
          rcases hr with hr | hr
          · exact absurd hr h1
          · rw [if_neg hb, hs] at hr
            simp at hr
      · constructor
        · intro _
          refine Or.inr ?_
          rw [if_neg hb]
          cases hc : (splitSentences row.article_tokens row.article_flags).1 with
          | nil => exact absurd hc hs
          | cons a l => simp
        · intro _
          exact ⟨_, sampleArticle_noBoundary sc maxTokenLen row h1 hb' hs⟩

/-! ### Claim C1 -/

/-- C1: for every over-budget row, if the article contains a boundary
character the replacement token and flag sequences have length at most
`max_token_len`; if it contains none, the Sampler returns exactly the
first detected sentence's token/flag chunks (regardless of budget). -/
theorem sampler_over_budget_bound_or_first_sentence (sc : Scorer)
    (maxTokenLen : ℕ) (row out : SampleRow)
    (h1 : maxTokenLen < row.article_tokens.length)
    (h2 : sampleArticle sc maxTokenLen row = Except.ok out) :
    (hasBoundaryChar row.article_tokens = true →
      out.article_tokens.length ≤ maxTokenLen ∧
      out.article_flags.length ≤ maxTokenLen) ∧
    (hasBoundaryChar row.article_tokens = false →
      out.article_tokens =
        (splitSentences row.article_tokens row.article_flags).1.headD [] ∧
      out.article_flags =
        (splitSentences row.article_tokens row.article_flags).2.headD []) := by
  have h1' : ¬ row.article_tokens.length ≤ maxTokenLen := by omega
  constructor
  · intro hb
    by_cases hcnt :
        (splitSentences row.article_tokens row.article_flags).1.length < 2
    · rw [sampleArticle_error_main sc maxTokenLen row h1' hb hcnt] at h2
      simp at h2
    · rw [sampleArticle_main sc maxTokenLen row h1' hb hcnt] at h2
      injection h2 with hout
      subst hout
      exact ⟨List.length_take_le _ _, List.length_take_le _ _⟩
  · intro hb
    by_cases hs : (splitSentences row.article_tokens row.article_flags).1 = []
    · rw [sampleArticle_error_noBoundary sc maxTokenLen row h1' hb hs] at h2
      simp at h2
    · rw [sampleArticle_noBoundary sc maxTokenLen row h1' hb hs] at h2
      injection h2 with hout
      subst hout
      exact ⟨rfl, rfl⟩

/-- Witness for C1 at the over-budget boundary-bearing row `c1row`. -/
theorem sampler_over_budget_bound_or_first_sentence_witness :
    4 < c1row.article_tokens.length ∧
      sampleArticle eqScorer 4 c1row = Except.ok c1out ∧
      ((hasBoundaryChar c1row.article_tokens = true →
        c1out.article_tokens.length ≤ 4 ∧
        c1out.article_flags.length ≤ 4) ∧
       (hasBoundaryChar c1row.article_tokens = false →
        c1out.article_tokens =
          (splitSentences c1row.article_tokens c1row.article_flags).1.headD [] ∧
        c1out.article_flags =
          (splitSentences c1row.article_tokens c1row.article_flags).2.headD [])) :=
  ⟨by decide, by rfl,
    sampler_over_budget_bound_or_first_sentence eqScorer 4 c1row c1out
      (by decide) (by rfl)⟩

/-! ### Claim C8 -/

/-- C8: whenever the Sampler replaces the article tokens (over-budget
row with a boundary character), the output is the selected sentences in
original document order — formally, a sublist of the original token and
flag sequences, equal to the flattening of a flag-selected subsequence
of the sentence split — hard-truncated to at most `max_token_len`
tokens. -/
theorem sampler_output_order_and_clamp (sc : Scorer) (maxTokenLen : ℕ)
    (row out : SampleRow)
    (h1 : maxTokenLen < row.article_tokens.length)
    (hb : hasBoundaryChar row.article_tokens = true)
    (h2 : sampleArticle sc maxTokenLen row = Except.ok out) :
    List.Sublist out.article_tokens row.article_tokens ∧
    List.Sublist out.article_flags row.article_flags ∧
    out.article_tokens.length ≤ maxTokenLen ∧
    out.article_flags.length ≤ maxTokenLen ∧
    ∃ sel : List Bool,
      out.article_tokens =
        ((selectByFlag (splitSentences row.article_tokens row.article_flags).1
          sel).flatten.take maxTokenLen) ∧
      out.article_flags =
        ((selectByFlag (splitSentences row.article_tokens row.article_flags).2
          sel).flatten.take maxTokenLen) := by
  have h1' : ¬ row.article_tokens.length ≤ maxTokenLen := by omega
  by_cases hcnt :
      (splitSentences row.article_tokens row.article_flags).1.length < 2
  · rw [sampleArticle_error_main sc maxTokenLen row h1' hb hcnt] at h2
    simp at h2
  · rw [sampleArticle_main sc maxTokenLen row h1' hb hcnt] at h2
    injection h2 with hout
    subst hout
    refine ⟨?_, ?_, List.length_take_le _ _, List.length_take_le _ _,
      samplerFlags sc maxTokenLen
        (splitSentences row.article_tokens row.article_flags).1
        (String.join row.question_tokens), rfl, rfl⟩
    · exact (List.take_sublist _ _).trans
        ((sublist_flatten_mono (selectByFlag_sublist _ _)).trans
          (splitSentences_fst_flatten_sublist row.article_tokens
            row.article_flags))
    · exact (List.take_sublist _ _).trans
        ((sublist_flatten_mono (selectByFlag_sublist _ _)).trans
          (splitSentences_snd_flatten_sublist row.article_tokens
            row.article_flags))

/-- Witness for C8 at the over-budget boundary-bearing row `c1row`. -/
theorem sampler_output_order_and_clamp_witness :
    4 < c1row.article_tokens.length ∧
      hasBoundaryChar c1row.article_tokens = true ∧
      sampleArticle eqScorer 4 c1row = Except.ok c1out ∧
      (List.Sublist c1out.article_tokens c1row.article_tokens ∧
       List.Sublist c1out.article_flags c1row.article_flags ∧
       c1out.article_tokens.length ≤ 4 ∧
       c1out.article_flags.length ≤ 4 ∧
       ∃ sel : List Bool,
         c1out.article_tokens =
           ((selectByFlag (splitSentences c1row.article_tokens
             c1row.article_flags).1 sel).flatten.take 4) ∧
         c1out.article_flags =
           ((selectByFlag (splitSentences c1row.article_tokens
             c1row.article_flags).2 sel).flatten.take 4)) :=
  ⟨by decide, by rfl, by rfl,
    sampler_output_order_and_clamp eqScorer 4 c1row c1out (by decide) (by rfl)
      (by rfl)⟩

/-! ### Claim C5 (corrected) -/

/-- The code's greedy loop agrees with the spec's exclusion-based greedy
pass whenever no force-kept position carries a positive propagated
score. -/
theorem greedyLoop_eq_excl_of_nonpos (sentLens : List ℕ) (sRank : List ℚ)
    (maxLen n : ℕ)
    (hnp : ∀ pos, (pos = 0 ∨ pos = 1 ∨ pos + 1 = n ∨ pos + 2 = n) →
      sRank.getD pos 0 ≤ 0) :
    ∀ (rank : List ℕ) (st : List Bool × ℕ),
      greedyLoop sentLens sRank maxLen rank st =
        greedyLoopExcl sentLens sRank maxLen n rank st
  | [], (fl, cl) => rfl
  | pos :: rest, (fl, cl) => by
    by_cases hcl : cl < maxLen
    · by_cases hf : pos = 0 ∨ pos = 1 ∨ pos + 1 = n ∨ pos + 2 = n
      · have hs : ¬ 0 < sRank.getD pos 0 := not_lt.mpr (hnp pos hf)
        rw [greedyLoop, if_pos hcl, if_neg hs,
          greedyLoopExcl, if_pos hcl, if_pos hf]
        exact greedyLoop_eq_excl_of_nonpos sentLens sRank maxLen n hnp rest (fl, cl)
      · by_cases hs : 0 < sRank.getD pos 0
        · rw [greedyLoop, if_pos hcl, if_pos hs,
            greedyLoopExcl, if_pos hcl, if_neg hf, if_pos hs]
          exact greedyLoop_eq_excl_of_nonpos sentLens sRank maxLen n hnp rest _
        · rw [greedyLoop, if_pos hcl, if_neg hs,
            greedyLoopExcl, if_pos hcl, if_neg hf, if_neg hs]
          exact greedyLoop_eq_excl_of_nonpos sentLens sRank maxLen n hnp rest _
    · rw [greedyLoop, if_neg hcl, greedyLoopExcl, if_neg hcl]

/-- Counterexample to C5 as stated: on the nine-sentence row `c5row`
with budget 17, the source's greedy pass re-accumulates the lengths of
the force-kept sentences 0 and 1 (whose propagated scores are positive),
exhausting the budget early and dropping sentence 6 (`["g","。"]`),
whereas the spec's exclusion-based greedy pass keeps it: the two
samplers disagree. -/
theorem sampler_greedy_differs_from_excluding_spec :
    (sampleArticle eqScorer 17 c5row).toOption.map SampleRow.article_tokens =
      some ["a", "。", "b", "。", "c", "。", "d", "。", "e", "。", "f", "。",
            "h", "。", "i", "。"] ∧
    (sampleArticleExclC5 eqScorer 17 c5row).toOption.map
        SampleRow.article_tokens =
      some ["a", "。", "b", "。", "c", "。", "d", "。", "e", "。", "f", "。",
            "g", "。", "h", "。", "i"] ∧
    sampleArticle eqScorer 17 c5row ≠ sampleArticleExclC5 eqScorer 17 c5row := by
  have ha : (sampleArticle eqScorer 17 c5row).toOption.map
      SampleRow.article_tokens =
      some ["a", "。", "b", "。", "c", "。", "d", "。", "e", "。", "f", "。",
            "h", "。", "i", "。"] := by
    with_unfolding_all rfl
  have hb : (sampleArticleExclC5 eqScorer 17 c5row).toOption.map
      SampleRow.article_tokens =
      some ["a", "。", "b", "。", "c", "。", "d", "。", "e", "。", "f", "。",
            "g", "。", "h", "。", "i"] := by
    with_unfolding_all rfl
  refine ⟨ha, hb, fun h => ?_⟩
  rw [h, hb] at ha
  exact absurd ha (by decide)

/-- C5 amended: starting from a budget usage equal to the combined
length of the four force-kept sentences, the greedy pass adds sentences
in rank order only while the running length is below `max_token_len`
and the propagated score is positive, but the force-kept sentences are
NOT excluded: any position (force-kept included) with positive
propagated score has its length accumulated when reached, so a
force-kept sentence's length can be counted a second time.  The
exclusion-based reading only coincides when no force-kept position has
positive propagated score. -/
theorem sampler_greedy_includes_forced :
    (∀ (sentLens : List ℕ) (sRank : List ℚ) (maxLen : ℕ) (rank : List ℕ)
        (init : List Bool × ℕ),
      greedyLoop sentLens sRank maxLen rank init =
        greedyFold sentLens sRank maxLen rank init) ∧
    (∀ (sentLens : List ℕ) (sRank : List ℚ) (maxLen n : ℕ) (rank : List ℕ)
        (init : List Bool × ℕ),
      (∀ pos, (pos = 0 ∨ pos = 1 ∨ pos + 1 = n ∨ pos + 2 = n) →
        sRank.getD pos 0 ≤ 0) →
      greedyLoop sentLens sRank maxLen rank init =
        greedyLoopExcl sentLens sRank maxLen n rank init) :=
  ⟨fun sentLens sRank maxLen rank init =>
     greedyLoop_eq_greedyFold sentLens sRank maxLen rank init,
   fun sentLens sRank maxLen n rank init hnp =>
     greedyLoop_eq_excl_of_nonpos sentLens sRank maxLen n hnp rank init⟩

/-- Witness for C5 amended at concrete greedy states. -/
theorem sampler_greedy_includes_forced_witness :
    greedyLoop [2, 2] [1, 1] 3 [0, 1] ([false, false], 0) =
      greedyFold [2, 2] [1, 1] 3 [0, 1] ([false, false], 0) ∧
    greedyLoop [2, 2, 2] [0, 0, 0] 9 [2, 0, 1] ([true, true, false], 4) =
      greedyLoopExcl [2, 2, 2] [0, 0, 0] 9 3 [2, 0, 1] ([true, true, false], 4) :=
  ⟨sampler_greedy_includes_forced.1 [2, 2] [1, 1] 3 [0, 1] ([false, false], 0),
   sampler_greedy_includes_forced.2 [2, 2, 2] [0, 0, 0] 9 3 [2, 0, 1]
     ([true, true, false], 4)
     (by
       intro pos hp
       have hc : pos = 0 ∨ pos = 1 ∨ pos = 2 := by omega
       rcases hc with h | h | h <;> subst h <;> decide)⟩

/-! ### Claim C6 (corrected) -/

/-- Counterexample to C6 as stated: on the tied score list `[1, 1]` the
source's ordering `list(reversed(np.argsort(scores)))` produces
`[1, 0]` — ties come out in REVERSED original order — while the stable
descending ranking the claim describes produces `[0, 1]`. -/
theorem sampler_rank_not_stable_on_ties :
    argsortDesc [(1 : ℚ), 1] = [1, 0] ∧
    stableDescC6 [(1 : ℚ), 1] = [0, 1] ∧
    argsortDesc [(1 : ℚ), 1] ≠ stableDescC6 [(1 : ℚ), 1] := by
  refine ⟨by decide, by decide, by decide⟩

/-- C6 amended: both score-based orderings inside the Sampler
(`list(reversed(np.argsort(·)))` applied to the raw scores in step 4 and
to the propagated scores in step 5) sort by descending score with ties
broken by DESCENDING original position (later sentence first), and are
permutations of the index range. -/
theorem sampler_rank_ties_reverse_order (l : List ℚ) :
    (argsortDesc l).Pairwise
      (fun i j => l.getD j 0 < l.getD i 0 ∨
        (l.getD i 0 = l.getD j 0 ∧ j < i)) ∧
    (argsortDesc l).Perm (List.range l.length) := by
  haveI : IsTotal ℕ (rankLE l) := ⟨rankLE_total l⟩
  haveI : IsTrans ℕ (rankLE l) := ⟨rankLE_trans l⟩
  have hsorted : (argsortAsc l).Pairwise (rankLE l) :=
    List.sorted_insertionSort (rankLE l) (List.range l.length)
  have hperm : (argsortAsc l).Perm (List.range l.length) :=
    List.perm_insertionSort (rankLE l) (List.range l.length)
  have hnodup : (argsortAsc l).Nodup :=
    hperm.nodup_iff.mpr (List.nodup_range _)
  have hcomb : (argsortAsc l).Pairwise
      (fun i j => rankLE l i j ∧ i ≠ j) := hsorted.and hnodup
  have hstrict : (argsortAsc l).Pairwise
      (fun i j => l.getD i 0 < l.getD j 0 ∨
        (l.getD i 0 = l.getD j 0 ∧ i < j)) := by
    refine hcomb.imp ?_
    rintro i j ⟨hr | ⟨he, hle⟩, hne⟩
    · exact Or.inl hr
    · exact Or.inr ⟨he, lt_of_le_of_ne hle hne⟩
  constructor
  · refine List.pairwise_reverse.mpr (hstrict.imp ?_)
    rintro i j (hr | ⟨he, hlt⟩)
    · exact Or.inl hr
    · exact Or.inr ⟨he.symm, hlt⟩
  · exact (List.reverse_perm _).trans hperm

/-- In-bounds `getD` of a mapped list, for any defaults. -/
theorem getD_map_lt {α β : Type} (l : List α) (f : α → β) (i : ℕ) (d : α)
    (d' : β) (h : i < l.length) : (l.map f).getD i d' = f (l.getD i d) := by
  rw [List.getD_eq_getElem (l.map f) d' (by simpa using h),
    List.getD_eq_getElem l d h, List.getElem_map]

/-- A survivor passed the candidate-generation guards and the IoU
prefilter. -/
theorem survivors_mem (article answerTokens : List String) (p : ℕ × ℕ)
    (h : p ∈ survivors article answerTokens) :
    p ∈ candPairs article.length answerTokens.length ∧
      (1 : ℚ)/4 ≤ charIoU (candText article p.1 p.2)
        (pyStrip (String.join answerTokens)) := by
  unfold survivors at h
  rw [List.mem_filter] at h
  exact ⟨h.1, of_decide_eq_true h.2⟩

/-- Every exact-match index is a valid survivor index whose similarity
is exactly 1. -/
theorem exactMatchIdxs_mem (sc : Scorer) (article answerTokens : List String)
    (x : ℕ) (h : x ∈ exactMatchIdxs sc article answerTokens) :
    x < (instScores sc article answerTokens).length ∧
      (instScores sc article answerTokens).getD x 0 = 1 := by
  unfold exactMatchIdxs at h
  rw [List.mem_map] at h
  obtain ⟨p, hp, hpx⟩ := h
  rw [List.mem_filter] at hp
  obtain ⟨hpm, hpv⟩ := hp
  have hmem := mem_enumFrom_getD (instScores sc article answerTokens) 0 p.1 p.2
    (by simpa [List.enum] using hpm)
  subst hpx
  refine ⟨by omega, ?_⟩
  have hval := hmem.2.2
  simp only [Nat.sub_zero] at hval
  rw [hval]
  exact of_decide_eq_true hpv

/-- There are exactly as many exact-match indices as exact-match
scores. -/
theorem exactMatchIdxs_length (sc : Scorer) (article answerTokens : List String) :
    (exactMatchIdxs sc article answerTokens).length =
      (instScores sc article answerTokens).countP (fun q => decide (q = 1)) := by
  unfold exactMatchIdxs
  rw [List.length_map, List.countP_eq_length_filter]
  exact enumFrom_filter_length (instScores sc article answerTokens) 0
    (fun q => decide (q = 1))

/-- Branch lemma: with at least one survivor, the Locator writes the
span selected by `locBestIdx` and the full delta arrays. -/
theorem locateGoldenSpan_found (sc : Scorer) (row : SampleRow)
    (hs : survivors row.article_tokens row.answer_tokens ≠ []) :
    locateGoldenSpan sc row = { row with
      answer_token_start :=
        ((((survivors row.article_tokens row.answer_tokens).map
          Prod.fst).getD (locBestIdx sc row) 0 : ℕ) : ℤ),
      answer_token_end :=
        ((((survivors row.article_tokens row.answer_tokens).map
          (fun p => p.1 + p.2 - 1)).getD (locBestIdx sc row) 0 : ℕ) : ℤ),
      delta_token_starts :=
        (survivors row.article_tokens row.answer_tokens).map Prod.fst,
      delta_token_ends :=
        (survivors row.article_tokens row.answer_tokens).map
          (fun p => p.1 + p.2 - 1),
      delta_rouges := instScores sc row.article_tokens row.answer_tokens } := by
  unfold locateGoldenSpan
  rw [if_neg hs]

/-- Branch lemma: with no survivor, the Locator writes the sentinel. -/
theorem locateGoldenSpan_sentinel (sc : Scorer) (row : SampleRow)
    (hs : survivors row.article_tokens row.answer_tokens = []) :
    locateGoldenSpan sc row = { row with
      answer_token_start := -1, answer_token_end := -1,
      delta_token_starts := [], delta_token_ends := [],
      delta_rouges := [] } := by
  unfold locateGoldenSpan
  rw [if_pos hs]

/-- The selection index is a valid survivor index. -/
theorem locBestIdx_lt (sc : Scorer) (row : SampleRow)
    (hs : survivors row.article_tokens row.answer_tokens ≠ []) :
    locBestIdx sc row <
      (survivors row.article_tokens row.answer_tokens).length := by
  have hlen : (instScores sc row.article_tokens row.answer_tokens).length =
      (survivors row.article_tokens row.answer_tokens).length := by
    unfold instScores
    exact List.length_map _ _
  have hsims : instScores sc row.article_tokens row.answer_tokens ≠ [] := by
    intro hnil
    apply hs
    have := congrArg List.length hnil
    rw [hlen] at this
    exact List.eq_nil_of_length_eq_zero (by simpa using this)
  unfold locBestIdx
  by_cases hc : (instScores sc row.article_tokens
      row.answer_tokens).countP (fun q => decide (q = 1)) ≤ 1
  · rw [if_pos hc]
    have := (argmaxFirst_spec _ hsims).1
    omega
  · rw [if_neg hc]
    have hctxlen : (ctxScores sc row.article_tokens row.answer_tokens
        row.question_tokens).length =
        (exactMatchIdxs sc row.article_tokens row.answer_tokens).length := by
      unfold ctxScores
      exact List.length_map _ _
    have hexlen := exactMatchIdxs_length sc row.article_tokens row.answer_tokens
    have hctxne : ctxScores sc row.article_tokens row.answer_tokens
        row.question_tokens ≠ [] := by
      intro hnil
      have := congrArg List.length hnil
      rw [hctxlen, hexlen] at this
      simp only [List.length_nil] at this
      omega
    have hm := (argmaxFirst_spec _ hctxne).1
    have hmem : (exactMatchIdxs sc row.article_tokens row.answer_tokens).getD
        (argmaxFirst (ctxScores sc row.article_tokens row.answer_tokens
          row.question_tokens)) 0 ∈
        exactMatchIdxs sc row.article_tokens row.answer_tokens :=
      getD_mem_of_lt _ _ _ (by omega)
    have hlt := (exactMatchIdxs_mem sc row.article_tokens
      row.answer_tokens _ hmem).1
    exact lt_of_lt_of_eq hlt hlen

/-! ### Claim C3 -/

/-- C3: the Locator returns the sentinel `(-1, -1)` with empty delta
arrays iff no candidate passes the IoU ≥ 0.25 prefilter; otherwise it
returns a surviving candidate span `p` with
`0 ≤ start = p.1 ≤ end = p.1 + p.2 - 1 < len(article)` whose joined
text passed the prefilter. -/
theorem locator_sentinel_iff_no_survivor (sc : Scorer) (row : SampleRow) :
    (((locateGoldenSpan sc row).answer_token_start = -1 ∧
      (locateGoldenSpan sc row).answer_token_end = -1 ∧
      (locateGoldenSpan sc row).delta_token_starts = [] ∧
      (locateGoldenSpan sc row).delta_token_ends = [] ∧
      (locateGoldenSpan sc row).delta_rouges = []) ↔
      survivors row.article_tokens row.answer_tokens = []) ∧
    (survivors row.article_tokens row.answer_tokens ≠ [] →
      ∃ p ∈ survivors row.article_tokens row.answer_tokens,
        (locateGoldenSpan sc row).answer_token_start = (p.1 : ℤ) ∧
        (locateGoldenSpan sc row).answer_token_end =
          ((p.1 + p.2 - 1 : ℕ) : ℤ) ∧
        0 ≤ (locateGoldenSpan sc row).answer_token_start ∧
        (locateGoldenSpan sc row).answer_token_start ≤
          (locateGoldenSpan sc row).answer_token_end ∧
        (locateGoldenSpan sc row).answer_token_end <
          (row.article_tokens.length : ℤ) ∧
        (1 : ℚ)/4 ≤ charIoU (candText row.article_tokens p.1 p.2)
          (pyStrip (String.join row.answer_tokens))) := by
  by_cases hs : survivors row.article_tokens row.answer_tokens = []
  · rw [locateGoldenSpan_sentinel sc row hs]
    exact ⟨iff_of_true ⟨rfl, rfl, rfl, rfl, rfl⟩ hs, fun hne => absurd hs hne⟩
  · have hbest := locBestIdx_lt sc row hs
    have hfound := locateGoldenSpan_found sc row hs
    have hmem : (survivors row.article_tokens row.answer_tokens).getD
        (locBestIdx sc row) (0, 0) ∈
        survivors row.article_tokens row.answer_tokens :=
      getD_mem_of_lt _ _ _ hbest
    obtain ⟨hcand, hiou⟩ := survivors_mem row.article_tokens row.answer_tokens
      _ hmem
    obtain ⟨hpos, hinside⟩ := candPairs_mem row.article_tokens.length
      row.answer_tokens.length _ hcand
    have hstart : (locateGoldenSpan sc row).answer_token_start =
        (((survivors row.article_tokens row.answer_tokens).getD
          (locBestIdx sc row) (0, 0)).1 : ℤ) := by
      rw [hfound]
      simp only []
      rw [getD_map_lt _ Prod.fst _ (0, 0) _ hbest]
    have hend : (locateGoldenSpan sc row).answer_token_end =
        ((((survivors row.article_tokens row.answer_tokens).getD
          (locBestIdx sc row) (0, 0)).1 +
          ((survivors row.article_tokens row.answer_tokens).getD
          (locBestIdx sc row) (0, 0)).2 - 1 : ℕ) : ℤ) := by
      rw [hfound]
      simp only []
      rw [getD_map_lt _ (fun p => p.1 + p.2 - 1) _ (0, 0) _ hbest]
    constructor
    · refine iff_of_false (fun hcon => ?_) hs
      have := hcon.1
      rw [hstart] at this
      omega
    · intro _
      refine ⟨(survivors row.article_tokens row.answer_tokens).getD
        (locBestIdx sc row) (0, 0), hmem, hstart, hend, ?_, ?_, ?_, hiou⟩
      · rw [hstart]; omega
      · rw [hstart, hend]
        have : (((survivors row.article_tokens row.answer_tokens).getD
            (locBestIdx sc row) (0, 0)).1 : ℤ) ≤
            ((((survivors row.article_tokens row.answer_tokens).getD
            (locBestIdx sc row) (0, 0)).1 +
            ((survivors row.article_tokens row.answer_tokens).getD
            (locBestIdx sc row) (0, 0)).2 - 1 : ℕ) : ℤ) := by
          omega
        exact this
      · rw [hend]
        omega

/-- Witness for C3 at the Scenario-2 row: survivors exist and the
Locator returns the span (2, 3). -/
theorem locator_sentinel_iff_no_survivor_witness :
    survivors scen2row.article_tokens scen2row.answer_tokens ≠ [] ∧
      (∃ p ∈ survivors scen2row.article_tokens scen2row.answer_tokens,
        (locateGoldenSpan eqScorer scen2row).answer_token_start = (p.1 : ℤ) ∧
        (locateGoldenSpan eqScorer scen2row).answer_token_end =
          ((p.1 + p.2 - 1 : ℕ) : ℤ) ∧
        0 ≤ (locateGoldenSpan eqScorer scen2row).answer_token_start ∧
        (locateGoldenSpan eqScorer scen2row).answer_token_start ≤
          (locateGoldenSpan eqScorer scen2row).answer_token_end ∧
        (locateGoldenSpan eqScorer scen2row).answer_token_end <
          (scen2row.article_tokens.length : ℤ) ∧
        (1 : ℚ)/4 ≤ charIoU (candText scen2row.article_tokens p.1 p.2)
          (pyStrip (String.join scen2row.answer_tokens))) :=
  have hne : survivors scen2row.article_tokens scen2row.answer_tokens ≠ [] := by
    with_unfolding_all decide
  ⟨hne, (locator_sentinel_iff_no_survivor eqScorer scen2row).2 hne⟩

/-! ### Claim C4 -/

/-- C4: with at least one survivor, if fewer than 2 candidates score
exactly 1.0 the Locator selects the globally highest-similarity
candidate with first-occurrence tie-breaking; with 2 or more exact
matches it selects among only the exact-match candidates the one whose
context window scores highest (again first maximum) against the
question text. -/
theorem locator_selection_semantics (sc : Scorer) (row : SampleRow)
    (hne : survivors row.article_tokens row.answer_tokens ≠ []) :
    ((instScores sc row.article_tokens row.answer_tokens).countP
        (fun q => decide (q = 1)) ≤ 1 →
      ∃ k, k < (survivors row.article_tokens row.answer_tokens).length ∧
        (∀ j, j < (survivors row.article_tokens row.answer_tokens).length →
          (instScores sc row.article_tokens row.answer_tokens).getD j 0 ≤
            (instScores sc row.article_tokens row.answer_tokens).getD k 0) ∧
        (∀ j, j < k →
          (instScores sc row.article_tokens row.answer_tokens).getD j 0 <
            (instScores sc row.article_tokens row.answer_tokens).getD k 0) ∧
        (locateGoldenSpan sc row).answer_token_start =
          (((survivors row.article_tokens row.answer_tokens).getD k
            (0, 0)).1 : ℤ) ∧
        (locateGoldenSpan sc row).answer_token_end =
          ((((survivors row.article_tokens row.answer_tokens).getD k
            (0, 0)).1 +
            ((survivors row.article_tokens row.answer_tokens).getD k
            (0, 0)).2 - 1 : ℕ) : ℤ)) ∧
    (2 ≤ (instScores sc row.article_tokens row.answer_tokens).countP
        (fun q => decide (q = 1)) →
      ∃ m, m < (ctxScores sc row.article_tokens row.answer_tokens
          row.question_tokens).length ∧
        (∀ j, j < (ctxScores sc row.article_tokens row.answer_tokens
            row.question_tokens).length →
          (ctxScores sc row.article_tokens row.answer_tokens
            row.question_tokens).getD j 0 ≤
          (ctxScores sc row.article_tokens row.answer_tokens
            row.question_tokens).getD m 0) ∧
        (∀ j, j < m →
          (ctxScores sc row.article_tokens row.answer_tokens
            row.question_tokens).getD j 0 <
          (ctxScores sc row.article_tokens row.answer_tokens
            row.question_tokens).getD m 0) ∧
        (exactMatchIdxs sc row.article_tokens row.answer_tokens).getD m 0 <
          (survivors row.article_tokens row.answer_tokens).length ∧
        (instScores sc row.article_tokens row.answer_tokens).getD
          ((exactMatchIdxs sc row.article_tokens row.answer_tokens).getD
            m 0) 0 = 1 ∧
        (locateGoldenSpan sc row).answer_token_start =
          (((survivors row.article_tokens row.answer_tokens).getD
            ((exactMatchIdxs sc row.article_tokens row.answer_tokens).getD
              m 0) (0, 0)).1 : ℤ) ∧
        (locateGoldenSpan sc row).answer_token_end =
          ((((survivors row.article_tokens row.answer_tokens).getD
            ((exactMatchIdxs sc row.article_tokens row.answer_tokens).getD
              m 0) (0, 0)).1 +
            ((survivors row.article_tokens row.answer_tokens).getD
            ((exactMatchIdxs sc row.article_tokens row.answer_tokens).getD
              m 0) (0, 0)).2 - 1 : ℕ) : ℤ)) := by
  have hbest := locBestIdx_lt sc row hne
  have hfound := locateGoldenSpan_found sc row hne
  have hlen : (instScores sc row.article_tokens row.answer_tokens).length =
      (survivors row.article_tokens row.answer_tokens).length := by
    unfold instScores
    exact List.length_map _ _
  have hsims : instScores sc row.article_tokens row.answer_tokens ≠ [] := by
    intro hnil
    apply hne
    have := congrArg List.length hnil
    rw [hlen] at this
    exact List.eq_nil_of_length_eq_zero (by simpa using this)
  have hstart : (locateGoldenSpan sc row).answer_token_start =
      (((survivors row.article_tokens row.answer_tokens).getD
        (locBestIdx sc row) (0, 0)).1 : ℤ) := by
    rw [hfound]
    simp only []
    rw [getD_map_lt _ Prod.fst _ (0, 0) _ hbest]
  have hend : (locateGoldenSpan sc row).answer_token_end =
      ((((survivors row.article_tokens row.answer_tokens).getD
        (locBestIdx sc row) (0, 0)).1 +
        ((survivors row.article_tokens row.answer_tokens).getD
        (locBestIdx sc row) (0, 0)).2 - 1 : ℕ) : ℤ) := by
    rw [hfound]
    simp only []
    rw [getD_map_lt _ (fun p => p.1 + p.2 - 1) _ (0, 0) _ hbest]
  constructor
  · intro hc
    have hbidx : locBestIdx sc row =
        argmaxFirst (instScores sc row.article_tokens row.answer_tokens) := by
      unfold locBestIdx
      rw [if_pos hc]
    obtain ⟨hklt, hkmax, hkfirst⟩ := argmaxFirst_spec _ hsims
    refine ⟨argmaxFirst (instScores sc row.article_tokens row.answer_tokens),
      by omega, ?_, hkfirst, ?_, ?_⟩
    · intro j hj
      exact hkmax j (by omega)
    · rw [hstart, hbidx]
    · rw [hend, hbidx]
  · intro hc2
    have hc' : ¬ (instScores sc row.article_tokens
        row.answer_tokens).countP (fun q => decide (q = 1)) ≤ 1 := by omega
    have hbidx : locBestIdx sc row =
        (exactMatchIdxs sc row.article_tokens row.answer_tokens).getD
          (argmaxFirst (ctxScores sc row.article_tokens row.answer_tokens
            row.question_tokens)) 0 := by
      unfold locBestIdx
      rw [if_neg hc']
    have hctxlen : (ctxScores sc row.article_tokens row.answer_tokens
        row.question_tokens).length =
        (exactMatchIdxs sc row.article_tokens row.answer_tokens).length := by
      unfold ctxScores
      exact List.length_map _ _
    have hexlen := exactMatchIdxs_length sc row.article_tokens row.answer_tokens
    have hctxne : ctxScores sc row.article_tokens row.answer_tokens
        row.question_tokens ≠ [] := by
      intro hnil
      have := congrArg List.length hnil
      rw [hctxlen, hexlen] at this
      simp only [List.length_nil] at this
      omega
    obtain ⟨hmlt, hmmax, hmfirst⟩ := argmaxFirst_spec _ hctxne
    have hkmem : (exactMatchIdxs sc row.article_tokens row.answer_tokens).getD
        (argmaxFirst (ctxScores sc row.article_tokens row.answer_tokens
          row.question_tokens)) 0 ∈
        exactMatchIdxs sc row.article_tokens row.answer_tokens :=
      getD_mem_of_lt _ _ _ (by omega)
    obtain ⟨hklt, hkone⟩ := exactMatchIdxs_mem sc row.article_tokens
      row.answer_tokens _ hkmem
    refine ⟨argmaxFirst (ctxScores sc row.article_tokens row.answer_tokens
      row.question_tokens), hmlt, hmmax, hmfirst, by omega, hkone, ?_, ?_⟩
    · rw [hstart, hbidx]
    · rw [hend, hbidx]

/-- Witness for C4 at the Scenario-2 row: a single exact match, so the
global first-maximum branch selects span (2, 3). -/
theorem locator_selection_semantics_witness :
    survivors scen2row.article_tokens scen2row.answer_tokens ≠ [] ∧
      (instScores eqScorer scen2row.article_tokens
        scen2row.answer_tokens).countP (fun q => decide (q = 1)) ≤ 1 ∧
      ∃ k, k < (survivors scen2row.article_tokens
          scen2row.answer_tokens).length ∧
        (∀ j, j < (survivors scen2row.article_tokens
            scen2row.answer_tokens).length →
          (instScores eqScorer scen2row.article_tokens
            scen2row.answer_tokens).getD j 0 ≤
          (instScores eqScorer scen2row.article_tokens
            scen2row.answer_tokens).getD k 0) ∧
        (∀ j, j < k →
          (instScores eqScorer scen2row.article_tokens
            scen2row.answer_tokens).getD j 0 <
          (instScores eqScorer scen2row.article_tokens
            scen2row.answer_tokens).getD k 0) ∧
        (locateGoldenSpan eqScorer scen2row).answer_token_start =
          (((survivors scen2row.article_tokens scen2row.answer_tokens).getD k
            (0, 0)).1 : ℤ) ∧
        (locateGoldenSpan eqScorer scen2row).answer_token_end =
          ((((survivors scen2row.article_tokens scen2row.answer_tokens).getD k
            (0, 0)).1 +
            ((survivors scen2row.article_tokens scen2row.answer_tokens).getD k
            (0, 0)).2 - 1 : ℕ) : ℤ) :=
  have hne : survivors scen2row.article_tokens scen2row.answer_tokens ≠ [] := by
    with_unfolding_all decide
  have hc : (instScores eqScorer scen2row.article_tokens
      scen2row.answer_tokens).countP (fun q => decide (q = 1)) ≤ 1 := by
    with_unfolding_all decide
  ⟨hne, hc, (locator_selection_semantics eqScorer scen2row hne).1 hc⟩
